import Mathlib

/-!
Shallow embedding of `Quadkeys.go` (package `Quadkeys`), a library converting
between WGS-84 latitude/longitude, map pixel coordinates, tile coordinates and
quadkey strings, together with proofs about it.

Modelling conventions:

* Go `int` and `uint` are 64-bit machine integers.  They are modelled as
  `Int` / `Nat`; operations that can overflow (`<<`, `*` on `int`, `<<` on
  `uint`) are wrapped to two's complement with `wrap64` (signed) or reduced
  `% 2 ^ 64` (unsigned), exactly as Go defines them.  Bitwise `|` and `&` of
  two in-range `int64` values never leave the `int64` range and coincide with
  the mathematical `Int.lor` / `Int.land`, which are used directly.
* Go `/` on `int` truncates towards zero, i.e. `Int.tdiv`.
* Go `float64` values are idealised as real numbers (`ℝ`); `math.Sin`,
  `math.Log`, `math.Cos` become `Real.sin`, `Real.log`, `Real.cos`, and the
  float-to-int conversion truncates towards zero.
* Go strings are modelled as `String` / `List Char`; the quadkey alphabet is
  ASCII, where Go's byte indexing agrees with character indexing.
-/

namespace Quadkeys

/-- Two's-complement wraparound of a 64-bit signed integer: the unique value
congruent to `n` modulo `2 ^ 64` lying in `[-2 ^ 63, 2 ^ 63)`. -/
def wrap64 (n : Int) : Int :=
  (n + 2 ^ 63) % 2 ^ 64 - 2 ^ 63

/-- Go's `x << s` on a 64-bit signed `int`: multiplication by `2 ^ s` wrapped
to two's complement (for `s ≥ 64` this is `0`, as Go specifies). -/
def goShl (x : Int) (s : Nat) : Int :=
  wrap64 (x * 2 ^ s)

/-- Source: `const EarthRadius = 6378137`, used in `float64` context. -/
noncomputable def EarthRadius : ℝ := 6378137

/-- Source: `const MinLatitude = -85.05112878`. -/
noncomputable def MinLatitude : ℝ := -85.05112878

/-- Source: `const MaxLatitude = -1 * MinLatitude`. -/
noncomputable def MaxLatitude : ℝ := -1 * MinLatitude

/-- Source: `const MinLongitude = -180`. -/
noncomputable def MinLongitude : ℝ := -180

/-- Source: `const MaxLongitude = -1 * MinLongitude`. -/
noncomputable def MaxLongitude : ℝ := -1 * MinLongitude

/-- Source: `const MaxLevel = 23`. -/
def MaxLevel : Nat := 23

/-- Source: `func clip(n, minValue, maxValue float64) float64`, i.e.
`math.Min(math.Max(n, minValue), maxValue)`.  Stated over any linear order so
that it can be used both for the `float64` idealisation (`ℝ`) and for
decidable instances (`ℚ`). -/
def clip {α : Type} [LinearOrder α] (n minValue maxValue : α) : α :=
  min (max n minValue) maxValue

/-- Source: `func MapSize(levelOfDetail uint) uint`, i.e. `256 << levelOfDetail`
on a 64-bit unsigned integer. -/
def MapSize (levelOfDetail : Nat) : Nat :=
  (256 <<< levelOfDetail) % 2 ^ 64

/-- The loop of `TileXYToQuadKey`: `for i := levelOfDetail; i > 0; i--` with a
string buffer.  The pattern `i + 1` is the loop variable `i`, so the source's
`1 << (i - 1)` is `goShl 1 i` and the two `digit++` statements appear as the
two conditional increments. -/
def tileXYToQuadKeyLoop (tileX tileY : Int) : Nat → String → String
  | 0, buffer => buffer
  | i + 1, buffer =>
    let mask := goShl 1 i
    let digit : Nat := 0
    let digit := if Int.land tileX mask ≠ 0 then digit + 1 else digit
    let digit := if Int.land tileY mask ≠ 0 then digit + 1 + 1 else digit
    tileXYToQuadKeyLoop tileX tileY i (buffer ++ Nat.repr digit)

/-- Source: `func TileXYToQuadKey(tileX, tileY int, levelOfDetail uint) string`. -/
def TileXYToQuadKey (tileX tileY : Int) (levelOfDetail : Nat) : String :=
  tileXYToQuadKeyLoop tileX tileY levelOfDetail ""

/-- The loop of `QuadKeyToTileXY`: `for i := levelOfDetail; i > 0; i--` scans
the characters left to right (`quadKey[levelOfDetail-i]`); when the character
at a given position is processed, `rest` holds the remaining characters and
`i - 1 = rest.length`, so the source's `1 << (i - 1)` is `goShl 1 rest.length`.
The `switch` on the character is the chain of `if`s, whose `default` branch
overwrites both accumulators with `-1`. -/
def quadKeyToTileXYLoop (tileX tileY : Int) : List Char → Int × Int
  | [] => (tileX, tileY)
  | c :: rest =>
    let mask := goShl 1 rest.length
    if c = '0' then quadKeyToTileXYLoop tileX tileY rest
    else if c = '1' then quadKeyToTileXYLoop (Int.lor tileX mask) tileY rest
    else if c = '2' then quadKeyToTileXYLoop tileX (Int.lor tileY mask) rest
    else if c = '3' then
      quadKeyToTileXYLoop (Int.lor tileX mask) (Int.lor tileY mask) rest
    else quadKeyToTileXYLoop (-1) (-1) rest

/-- Source: `func QuadKeyToTileXY(quadKey string) (tileX, tileY int,
levelOfDetail uint)`, with `levelOfDetail = uint(len(quadKey))`. -/
def QuadKeyToTileXY (quadKey : String) : Int × Int × Nat :=
  let r := quadKeyToTileXYLoop 0 0 quadKey.data
  (r.1, r.2, quadKey.length)

/-- Source: `func TileXYToPixelXY(tileX, tileY int) (pixelX, pixelY int)`:
`tileX * 256`, `tileY * 256` on 64-bit `int`. -/
def TileXYToPixelXY (tileX tileY : Int) : Int × Int :=
  (wrap64 (tileX * 256), wrap64 (tileY * 256))

/-- Source: `func PixelXYToTileXY(pixelX, pixelY int) (tileX, tileY int)`:
`pixelX / 256`, `pixelY / 256` with Go's truncating division. -/
def PixelXYToTileXY (pixelX pixelY : Int) : Int × Int :=
  (Int.tdiv pixelX 256, Int.tdiv pixelY 256)

/-- The spec's description of the quadkey encoding, as a character list, used
to check `TileXYToQuadKey` against the spec's words: "for `i` from `level`
down to 1, let `mask = 1 << (i−1)`; digit = 0, plus 1 if `(tileX & mask) != 0`,
plus 2 if `(tileY & mask) != 0`; append digit's decimal character to the
output in order from coarsest (`i = level`) to finest (`i = 1`)". -/
def specQuadKeyDigits (tileX tileY : Int) : Nat → List Char
  | 0 => []
  | i + 1 =>
    Nat.digitChar ((if Int.land tileX (2 ^ i) ≠ 0 then 1 else 0) +
      (if Int.land tileY (2 ^ i) ≠ 0 then 2 else 0)) :: specQuadKeyDigits tileX tileY i

/-- The spec's quadkey encoding as a string (see `specQuadKeyDigits`). -/
def specTileXYToQuadKey (tileX tileY : Int) (level : Nat) : String :=
  String.mk (specQuadKeyDigits tileX tileY level)

/-- Go's `int(f)` conversion from `float64`: truncation towards zero,
idealised over `ℝ`. -/
noncomputable def goInt (r : ℝ) : Int :=
  if 0 ≤ r then ⌊r⌋ else ⌈r⌉

/-- Source: `func GroundResolution(latitude float64, levelOfDetail uint)
float64`: clips the latitude, then
`cos(latitude*π/180) * 2 * π * EarthRadius / float64(MapSize(levelOfDetail))`. -/
noncomputable def GroundResolution (latitude : ℝ) (levelOfDetail : Nat) : ℝ :=
  Real.cos (clip latitude MinLatitude MaxLatitude * Real.pi / 180) * 2 * Real.pi *
    EarthRadius / (MapSize levelOfDetail : ℝ)

/-- Source: `func MapScale(latitude float64, levelOfDetail uint, screenDpi uint)
float64`: `GroundResolution(latitude, levelOfDetail) * float64(screenDpi) / 0.0254`. -/
noncomputable def MapScale (latitude : ℝ) (levelOfDetail : Nat) (screenDpi : Nat) : ℝ :=
  GroundResolution latitude levelOfDetail * (screenDpi : ℝ) / 0.0254

/-- Source: `func LatLongToPixelXY(latitude, longitude float64, levelOfDetail
uint) (pixelX, pixelY int)`.  `mapSize - 1` is computed on Go's `uint`, which
is `(mapSize + 2 ^ 64 - 1) % 2 ^ 64` in exact arithmetic. -/
noncomputable def LatLongToPixelXY (latitude longitude : ℝ)
    (levelOfDetail : Nat) : Int × Int :=
  let latitude := clip latitude MinLatitude MaxLatitude
  let longitude := clip longitude MinLongitude MaxLongitude
  let x := (longitude + 180) / 360
  let sinLatitude := Real.sin (latitude * Real.pi / 180)
  let y := 0.5 - Real.log ((1 + sinLatitude) / (1 - sinLatitude)) / (4 * Real.pi)
  let mapSize : Nat := MapSize levelOfDetail
  let mapSizeSub1 : Nat := (mapSize + 2 ^ 64 - 1) % 2 ^ 64
  (goInt (clip (x * (mapSize : ℝ) + 0.5) 0 (mapSizeSub1 : ℝ)),
   goInt (clip (y * (mapSize : ℝ) + 0.5) 0 (mapSizeSub1 : ℝ)))

/-- Source: `func PixelXYToLatLong(pixelX, pixelY int, levelOfDetail uint)
(latitude, longitude float64)`. -/
noncomputable def PixelXYToLatLong (pixelX pixelY : Int)
    (levelOfDetail : Nat) : ℝ × ℝ :=
  let mapSize : Nat := MapSize levelOfDetail
  let mapSizeSub1 : Nat := (mapSize + 2 ^ 64 - 1) % 2 ^ 64
  let x := clip (pixelX : ℝ) 0 (mapSizeSub1 : ℝ) / (mapSize : ℝ) - 0.5
  let y := 0.5 - clip (pixelY : ℝ) 0 (mapSizeSub1 : ℝ) / (mapSize : ℝ)
  (90 - 360 * Real.arctan (Real.exp (-y * 2 * Real.pi)) / Real.pi, 360 * x)

/-- Source: `func LatLongToQuadKey(latitude, longitude float64, levelOfDetail
uint) string`: the composition of `LatLongToPixelXY`, `PixelXYToTileXY` and
`TileXYToQuadKey`. -/
noncomputable def LatLongToQuadKey (latitude longitude : ℝ)
    (levelOfDetail : Nat) : String :=
  let p := LatLongToPixelXY latitude longitude levelOfDetail
  let t := PixelXYToTileXY p.1 p.2
  TileXYToQuadKey t.1 t.2 levelOfDetail

/-! ### Basic facts about the integer model -/

theorem wrap64_eq_self {n : Int} (h1 : -(2 ^ 63) ≤ n) (h2 : n < 2 ^ 63) :
    wrap64 n = n := by
  unfold wrap64
  have h : (n + 2 ^ 63) % 2 ^ 64 = n + 2 ^ 63 :=
    Int.emod_eq_of_lt (by linarith) (by linarith)
  rw [h]
  ring

theorem goShl_one_eq {s : Nat} (h : s ≤ 62) : goShl 1 s = 2 ^ s := by
  unfold goShl
  rw [one_mul]
  refine wrap64_eq_self (le_trans (by norm_num) (pow_nonneg (by norm_num) s)) ?_
  calc (2 : Int) ^ s ≤ 2 ^ 62 := by
        exact pow_le_pow_right₀ (by norm_num) h
    _ < 2 ^ 63 := by norm_num

theorem mapSize_eq_of_le {l : Nat} (h : l ≤ 55) : MapSize l = 256 * 2 ^ l := by
  unfold MapSize
  rw [Nat.shiftLeft_eq]
  refine Nat.mod_eq_of_lt ?_
  calc 256 * 2 ^ l ≤ 256 * 2 ^ 55 :=
        Nat.mul_le_mul_left _ (Nat.pow_le_pow_right (by norm_num) h)
    _ < 2 ^ 64 := by norm_num

/-! ### C8: MapSize is exact up to level 23 -/

/-- C8: for every level in [0, 23], `MapSize level` returns exactly
`256 * 2 ^ level`, with no 64-bit overflow or sign error; in particular
`MapSize 23 = 2147483648 = 2 ^ 31` is represented exactly. -/
theorem mapSize_exact (level : Nat) (h : level ≤ 23) :
    MapSize level = 256 * 2 ^ level ∧ MapSize 23 = 2147483648 := by
  constructor
  · exact mapSize_eq_of_le (le_trans h (by norm_num))
  · rw [mapSize_eq_of_le (by norm_num)]
    norm_num

theorem mapSize_exact_witness :
    23 ≤ 23 ∧ (MapSize 23 = 256 * 2 ^ 23 ∧ MapSize 23 = 2147483648) :=
  ⟨by decide, mapSize_exact 23 (by decide)⟩

/-! ### C6: clip is idempotent -/

theorem clip_clip {α : Type} [LinearOrder α] (n a b : α) (h : a ≤ b) :
    clip (clip n a b) a b = clip n a b := by
  unfold clip
  have h1 : a ≤ min (max n a) b := le_min (le_max_right n a) h
  rw [max_eq_left h1, min_eq_left (min_le_right (max n a) b)]

/-- C6: `clip` is idempotent: for every `n` and bounds `a ≤ b`,
`clip (clip n a b) a b = clip n a b` (stated over `ℚ`, a decidable model of
the ordered `float64` values). -/
theorem clip_idempotent (n a b : ℚ) (h : a ≤ b) :
    clip (clip n a b) a b = clip n a b :=
  clip_clip n a b h

theorem clip_idempotent_witness :
    (1 : ℚ) ≤ 3 ∧ clip (clip (7 : ℚ) 1 3) 1 3 = clip 7 1 3 :=
  ⟨by decide, clip_idempotent 7 1 3 (by decide)⟩

/-! ### The `-1` sentinel of `QuadKeyToTileXY` -/

theorem ldiff_zero_left (n : Nat) : Nat.ldiff 0 n = 0 := by
  unfold Nat.ldiff
  unfold Nat.bitwise
  simp

theorem lor_neg_one (x : Int) : Int.lor (-1) x = -1 := by
  cases x with
  | ofNat n =>
    show Int.lor (Int.negSucc 0) (Int.ofNat n) = Int.negSucc 0
    simp [Int.lor, ldiff_zero_left]
  | negSucc n =>
    show Int.lor (Int.negSucc 0) (Int.negSucc n) = Int.negSucc 0
    simp [Int.lor]

theorem loop_neg_one (l : List Char) :
    quadKeyToTileXYLoop (-1) (-1) l = (-1, -1) := by
  induction l with
  | nil => rfl
  | cons c rest ih =>
    simp only [quadKeyToTileXYLoop, lor_neg_one]
    split_ifs <;> exact ih

theorem loop_invalid :
    ∀ (l : List Char) (tileX tileY : Int),
      (∃ c ∈ l, ¬(c = '0' ∨ c = '1' ∨ c = '2' ∨ c = '3')) →
      quadKeyToTileXYLoop tileX tileY l = (-1, -1) := by
  intro l
  induction l with
  | nil =>
    intro tx ty h
    rcases h with ⟨c, hc, _⟩
    simp at hc
  | cons c rest ih =>
    intro tx ty h
    rcases h with ⟨d, hd, hinv⟩
    rcases List.mem_cons.mp hd with rfl | hdr
    · push_neg at hinv
      obtain ⟨h0, h1, h2, h3⟩ := hinv
      simp only [quadKeyToTileXYLoop, if_neg h0, if_neg h1, if_neg h2, if_neg h3]
      exact loop_neg_one rest
    · simp only [quadKeyToTileXYLoop]
      split_ifs <;> exact ih _ _ ⟨d, hdr, hinv⟩

/-- C1: the spec requires `QuadKeyToTileXY` to fail explicitly on an invalid
quadkey character, identifying the offending character and position, and to
return no tile coordinates.  The code has no error channel at all: on
`"12x3"` it silently returns the sentinel triple `(-1, -1, 4)`, discarding the
bits already decoded from the valid prefix — the latent defect the spec's
design notes flag.  This theorem evaluates the code at the failing input. -/
theorem quadKeyToTileXY_12x3_sentinel : QuadKeyToTileXY "12x3" = (-1, -1, 4) := by
  have h1 : quadKeyToTileXYLoop 0 0 "12x3".data =
      quadKeyToTileXYLoop (-1) (-1) ['3'] := rfl
  have h : quadKeyToTileXYLoop 0 0 "12x3".data = (-1, -1) := by
    rw [h1, loop_neg_one]
  simp only [QuadKeyToTileXY, h]
  rfl

/-- C10: for every input string containing at least one character outside
`{'0','1','2','3'}`, `QuadKeyToTileXY` returns `tileX = -1`, `tileY = -1` and
`levelOfDetail` equal to the string's length, wherever the invalid character
occurs: once the sentinel `-1` is set, later bit-or operations cannot change
it. -/
theorem quadKeyToTileXY_invalid_sentinel (s : String)
    (h : ∃ c ∈ s.data, ¬(c = '0' ∨ c = '1' ∨ c = '2' ∨ c = '3')) :
    QuadKeyToTileXY s = (-1, -1, s.length) := by
  have hl := loop_invalid s.data 0 0 h
  simp only [QuadKeyToTileXY, hl]

theorem quadKeyToTileXY_invalid_sentinel_witness :
    QuadKeyToTileXY "3x1" = (-1, -1, 3) :=
  quadKeyToTileXY_invalid_sentinel "3x1" (by decide)

/-! ### C4: tile/pixel round trip -/

/-- C4, counterexample: the claim quantifies over every `tileX, tileY ≥ 0`,
but Go's 64-bit `int` multiplication in `TileXYToPixelXY` overflows at
`tileX = 2 ^ 55` (`2 ^ 55 * 256 = 2 ^ 63` wraps to `-2 ^ 63`), so the round
trip returns `(-2 ^ 55, 0)` there, not `(2 ^ 55, 0)`. -/
theorem tile_pixel_roundtrip_counterexample :
    (0 : Int) ≤ 2 ^ 55 ∧ (0 : Int) ≤ 0 ∧
      PixelXYToTileXY (TileXYToPixelXY (2 ^ 55) 0).1 (TileXYToPixelXY (2 ^ 55) 0).2 ≠
        ((2 ^ 55 : Int), (0 : Int)) := by
  decide

/-- C4, amended: for every `tileX, tileY` in `[0, 2 ^ 55 - 1]` (the range in
which `tileX * 256` does not overflow a 64-bit `int`), converting tile
coordinates to the tile's upper-left pixel and back is the identity. -/
theorem tile_pixel_roundtrip (tileX tileY : Int)
    (hx0 : 0 ≤ tileX) (hx1 : tileX ≤ 2 ^ 55 - 1)
    (hy0 : 0 ≤ tileY) (hy1 : tileY ≤ 2 ^ 55 - 1) :
    PixelXYToTileXY (TileXYToPixelXY tileX tileY).1 (TileXYToPixelXY tileX tileY).2 =
      (tileX, tileY) := by
  have key : ∀ t : Int, 0 ≤ t → t ≤ 2 ^ 55 - 1 →
      Int.tdiv (wrap64 (t * 256)) 256 = t := by
    intro t h0 h1
    have hb : t * 256 ≤ (2 ^ 55 - 1) * 256 :=
      mul_le_mul_of_nonneg_right h1 (by norm_num)
    have hw : wrap64 (t * 256) = t * 256 := by
      refine wrap64_eq_self (by nlinarith) ?_
      calc t * 256 ≤ (2 ^ 55 - 1) * 256 := hb
        _ < 2 ^ 63 := by norm_num
    rw [hw]
    obtain ⟨n, rfl⟩ := Int.eq_ofNat_of_zero_le h0
    show Int.ofNat (n * 256 / 256) = Int.ofNat n
    rw [Nat.mul_div_cancel _ (by norm_num)]
  show (Int.tdiv (wrap64 (tileX * 256)) 256, Int.tdiv (wrap64 (tileY * 256)) 256) =
    (tileX, tileY)
  rw [key tileX hx0 hx1, key tileY hy0 hy1]

theorem tile_pixel_roundtrip_witness :
    (0 : Int) ≤ 5 ∧ (5 : Int) ≤ 2 ^ 55 - 1 ∧ (0 : Int) ≤ 7 ∧ (7 : Int) ≤ 2 ^ 55 - 1 ∧
      PixelXYToTileXY (TileXYToPixelXY 5 7).1 (TileXYToPixelXY 5 7).2 = (5, 7) :=
  ⟨by decide, by decide, by decide, by decide,
    tile_pixel_roundtrip 5 7 (by decide) (by decide) (by decide) (by decide)⟩

/-! ### C3: the quadkey encoding matches its specification -/

theorem spec_digits_length (x y : Int) : ∀ L, (specQuadKeyDigits x y L).length = L := by
  intro L
  induction L with
  | zero => rfl
  | succ L ih => simp [specQuadKeyDigits, ih]

theorem encode_loop_data (x y : Int) : ∀ (i : Nat), i ≤ 62 → ∀ buffer : String,
    (tileXYToQuadKeyLoop x y i buffer).data =
      buffer.data ++ specQuadKeyDigits x y i := by
  intro i
  induction i with
  | zero =>
    intro _ buffer
    simp [tileXYToQuadKeyLoop, specQuadKeyDigits]
  | succ i ih =>
    intro h buffer
    simp only [tileXYToQuadKeyLoop, goShl_one_eq (show i ≤ 62 by omega)]
    rw [ih (by omega)]
    rw [String.data_append, List.append_assoc, specQuadKeyDigits]
    by_cases hA : Int.land x (2 ^ i) ≠ 0 <;> by_cases hB : Int.land y (2 ^ i) ≠ 0 <;>
      simp [hA, hB] <;> rfl

theorem encode_eq_spec (x y : Int) (L : Nat) (h : L ≤ 62) :
    TileXYToQuadKey x y L = specTileXYToQuadKey x y L := by
  apply String.ext
  rw [TileXYToQuadKey, encode_loop_data x y L h ""]
  rfl

/-- C3: for every level in [1, 23] and all tile coordinates, the string
returned by `TileXYToQuadKey` is exactly the one described by the spec (for
`i` from `level` down to 1, mask `1 <<< (i-1)`, digit `0` plus 1 if the
`tileX` bit is set plus 2 if the `tileY` bit is set, appended coarsest level
first), its length equals `level`, and `TileXYToQuadKey 3 5 3 = "213"`. -/
theorem tileXYToQuadKey_matches_spec (tileX tileY : Int) (level : Nat)
    (h1 : 1 ≤ level) (h2 : level ≤ 23) :
    TileXYToQuadKey tileX tileY level = specTileXYToQuadKey tileX tileY level ∧
      (TileXYToQuadKey tileX tileY level).length = level ∧
      TileXYToQuadKey 3 5 3 = "213" := by
  refine ⟨encode_eq_spec tileX tileY level (by omega), ?_, by decide⟩
  rw [encode_eq_spec tileX tileY level (by omega)]
  show (specQuadKeyDigits tileX tileY level).length = level
  exact spec_digits_length tileX tileY level

theorem tileXYToQuadKey_matches_spec_witness :
    1 ≤ 3 ∧ 3 ≤ 23 ∧
      (TileXYToQuadKey 7 2 3 = specTileXYToQuadKey 7 2 3 ∧
        (TileXYToQuadKey 7 2 3).length = 3 ∧ TileXYToQuadKey 3 5 3 = "213") :=
  ⟨by decide, by decide, tileXYToQuadKey_matches_spec 7 2 3 (by decide) (by decide)⟩

/-! ### C2: the quadkey round trip -/

theorem land_cast (m n : Nat) : Int.land (m : Int) (n : Int) = ((m &&& n : Nat) : Int) := rfl

theorem lor_cast (m n : Nat) : Int.lor (m : Int) (n : Int) = ((m ||| n : Nat) : Int) := rfl

theorem cast_two_pow (L : Nat) : ((2 : Int)) ^ L = ((2 ^ L : Nat) : Int) := by
  push_cast
  ring

theorem land_two_pow_ne_zero_iff (a L : Nat) :
    (Int.land (a : Int) ((2 : Int) ^ L) ≠ 0) ↔ a.testBit L = true := by
  rw [cast_two_pow, land_cast, Nat.and_two_pow]
  cases h : a.testBit L <;> simp

theorem two_pow_mul_lor_eq_add (k u x : Nat) (h : x < 2 ^ k) :
    (2 ^ k * u) ||| x = 2 ^ k * u + x := by
  apply Nat.eq_of_testBit_eq
  intro i
  rw [Nat.testBit_or]
  rcases Nat.lt_or_ge i k with hik | hik
  · have hmul : (2 ^ k * u).testBit i = false := by
      rw [Nat.mul_comm, ← Nat.shiftLeft_eq, Nat.testBit_shiftLeft]
      simp [Nat.not_le.mpr hik]
    have hmod : (2 ^ k * u + x) % 2 ^ k = x := by
      rw [Nat.mul_add_mod]
      exact Nat.mod_eq_of_lt h
    have hlow := Nat.testBit_mod_two_pow (2 ^ k * u + x) k i
    rw [hmod] at hlow
    rw [hmul, Bool.false_or, hlow]
    simp [hik]
  · have hx : x.testBit i = false :=
      Nat.testBit_lt_two_pow (lt_of_lt_of_le h (Nat.pow_le_pow_right (by norm_num) hik))
    have hmul : (2 ^ k * u).testBit i = u.testBit (i - k) := by
      rw [Nat.mul_comm, ← Nat.shiftLeft_eq, Nat.testBit_shiftLeft]
      simp [hik]
    rw [hx, hmul, Bool.or_false]
    obtain ⟨j, rfl⟩ := Nat.exists_eq_add_of_le hik
    have hdiv : (2 ^ k * u + x) / 2 ^ (k + j) = u / 2 ^ j := by
      rw [Nat.pow_add, ← Nat.div_div_eq_div_mul]
      congr 1
      rw [Nat.mul_add_div (Nat.two_pow_pos k), Nat.div_eq_of_lt h, Nat.add_zero]
    rw [Nat.testBit_to_div_mod, Nat.testBit_to_div_mod, hdiv]
    simp

theorem mod_two_pow_succ (a L : Nat) :
    a % 2 ^ (L + 1) = 2 ^ L * (a / 2 ^ L % 2) + a % 2 ^ L := by
  have h3 := Nat.div_add_mod (a % (2 ^ L * 2)) (2 ^ L)
  rw [Nat.mod_mul_right_div_self, Nat.mod_mod_of_dvd a ⟨2, rfl⟩] at h3
  rw [pow_succ]
  exact h3.symm

theorem mod_two_pow_succ_of_testBit_true {a : Nat} (L : Nat) (h : a.testBit L = true) :
    a % 2 ^ (L + 1) = 2 ^ L + a % 2 ^ L := by
  rw [Nat.testBit_to_div_mod] at h
  have h1 : a / 2 ^ L % 2 = 1 := of_decide_eq_true h
  rw [mod_two_pow_succ, h1, Nat.mul_one]

theorem mod_two_pow_succ_of_testBit_false {a : Nat} (L : Nat) (h : a.testBit L = false) :
    a % 2 ^ (L + 1) = a % 2 ^ L := by
  rw [Nat.testBit_to_div_mod] at h
  have h1 : a / 2 ^ L % 2 = 0 := by
    rcases Nat.mod_two_eq_zero_or_one (a / 2 ^ L) with h0 | h0
    · exact h0
    · rw [h0] at h
      simp at h
  rw [mod_two_pow_succ, h1, Nat.mul_zero, Nat.zero_add]

theorem decode_spec_digits :
    ∀ (L : Nat), L ≤ 62 → ∀ (u v a b : Nat),
      quadKeyToTileXYLoop ((2 ^ L * u : Nat) : Int) ((2 ^ L * v : Nat) : Int)
          (specQuadKeyDigits (a : Int) (b : Int) L) =
        (((2 ^ L * u + a % 2 ^ L : Nat) : Int), ((2 ^ L * v + b % 2 ^ L : Nat) : Int)) := by
  intro L
  induction L with
  | zero =>
    intro _ u v a b
    simp [specQuadKeyDigits, quadKeyToTileXYLoop, Nat.mod_one]
  | succ L ih =>
    intro h u v a b
    have hL : L ≤ 62 := by omega
    rw [specQuadKeyDigits]
    simp only [land_two_pow_ne_zero_iff]
    have hor : ∀ w : Nat, Int.lor ((2 ^ (L + 1) * w : Nat) : Int) ((2 : Int) ^ L) =
        ((2 ^ L * (2 * w + 1) : Nat) : Int) := by
      intro w
      rw [cast_two_pow, lor_cast,
        two_pow_mul_lor_eq_add (L + 1) w (2 ^ L) (by
          exact Nat.pow_lt_pow_right (by norm_num) (by omega))]
      congr 1
      ring
    have hsame : ∀ w : Nat, ((2 ^ (L + 1) * w : Nat) : Int) = ((2 ^ L * (2 * w) : Nat) : Int) := by
      intro w
      congr 1
      ring
    cases hA : a.testBit L <;> cases hB : b.testBit L
    · rw [quadKeyToTileXYLoop]
      rw [if_pos (by decide)]
      rw [hsame u, hsame v, ih hL (2 * u) (2 * v) a b,
        mod_two_pow_succ_of_testBit_false L hA, mod_two_pow_succ_of_testBit_false L hB]
      refine Prod.ext ?_ ?_ <;> · show ((_ : Nat) : Int) = _; exact Nat.cast_inj.mpr (by ring)
    · rw [quadKeyToTileXYLoop]
      rw [if_neg (by decide), if_neg (by decide), if_pos (by decide)]
      rw [spec_digits_length, goShl_one_eq hL]
      rw [hsame u, hor v, ih hL (2 * u) (2 * v + 1) a b,
        mod_two_pow_succ_of_testBit_false L hA, mod_two_pow_succ_of_testBit_true L hB]
      refine Prod.ext ?_ ?_ <;> · show ((_ : Nat) : Int) = _; exact Nat.cast_inj.mpr (by ring)
    · rw [quadKeyToTileXYLoop]
      rw [if_neg (by decide), if_pos (by decide)]
      rw [spec_digits_length, goShl_one_eq hL]
      rw [hor u, hsame v, ih hL (2 * u + 1) (2 * v) a b,
        mod_two_pow_succ_of_testBit_true L hA, mod_two_pow_succ_of_testBit_false L hB]
      refine Prod.ext ?_ ?_ <;> · show ((_ : Nat) : Int) = _; exact Nat.cast_inj.mpr (by ring)
    · rw [quadKeyToTileXYLoop]
      rw [if_neg (by decide), if_neg (by decide), if_neg (by decide), if_pos (by decide)]
      rw [spec_digits_length, goShl_one_eq hL]
      rw [hor u, hor v, ih hL (2 * u + 1) (2 * v + 1) a b,
        mod_two_pow_succ_of_testBit_true L hA, mod_two_pow_succ_of_testBit_true L hB]
      refine Prod.ext ?_ ?_ <;> · show ((_ : Nat) : Int) = _; exact Nat.cast_inj.mpr (by ring)

/-- C2: for every level in [1, 23] and all tile coordinates in
`[0, 2 ^ level - 1]`, decoding the encoding is the identity:
`QuadKeyToTileXY (TileXYToQuadKey tileX tileY level) = (tileX, tileY, level)`. -/
theorem quadkey_roundtrip (tileX tileY : Int) (level : Nat)
    (h1 : 1 ≤ level) (h2 : level ≤ 23)
    (hx0 : 0 ≤ tileX) (hx1 : tileX < 2 ^ level)
    (hy0 : 0 ≤ tileY) (hy1 : tileY < 2 ^ level) :
    QuadKeyToTileXY (TileXYToQuadKey tileX tileY level) = (tileX, tileY, level) := by
  obtain ⟨a, rfl⟩ := Int.eq_ofNat_of_zero_le hx0
  obtain ⟨b, rfl⟩ := Int.eq_ofNat_of_zero_le hy0
  have ha : a < 2 ^ level := by exact_mod_cast hx1
  have hb : b < 2 ^ level := by exact_mod_cast hy1
  rw [encode_eq_spec _ _ level (by omega)]
  show ((quadKeyToTileXYLoop 0 0 (specQuadKeyDigits (a : Int) (b : Int) level)).1,
      (quadKeyToTileXYLoop 0 0 (specQuadKeyDigits (a : Int) (b : Int) level)).2,
      (specQuadKeyDigits (a : Int) (b : Int) level).length) =
    ((a : Int), (b : Int), level)
  rw [spec_digits_length]
  have hloop := decode_spec_digits level (by omega) 0 0 a b
  rw [Nat.mod_eq_of_lt ha, Nat.mod_eq_of_lt hb] at hloop
  simp only [Nat.mul_zero, Nat.zero_add, Nat.cast_zero] at hloop
  rw [hloop]

theorem quadkey_roundtrip_witness :
    1 ≤ 3 ∧ 3 ≤ 23 ∧ (0 : Int) ≤ 3 ∧ (3 : Int) < 2 ^ 3 ∧ (0 : Int) ≤ 5 ∧ (5 : Int) < 2 ^ 3 ∧
      QuadKeyToTileXY (TileXYToQuadKey 3 5 3) = (3, 5, 3) :=
  ⟨by decide, by decide, by decide, by decide, by decide, by decide,
    quadkey_roundtrip 3 5 3 (by decide) (by decide) (by decide) (by decide)
      (by decide) (by decide)⟩

/-! ### Facts about the clipped latitude used by the projection -/

theorem clip_mem {α : Type} [LinearOrder α] (n a b : α) (h : a ≤ b) :
    a ≤ clip n a b ∧ clip n a b ≤ b :=
  ⟨le_min (le_max_right n a) h, min_le_right _ _⟩

theorem clip_lat_angle_mem (latitude : ℝ) :
    clip latitude MinLatitude MaxLatitude * Real.pi / 180 ∈
      Set.Ioo (-(Real.pi / 2)) (Real.pi / 2) := by
  have hab : MinLatitude ≤ MaxLatitude := by norm_num [MinLatitude, MaxLatitude]
  obtain ⟨hlo, hhi⟩ := clip_mem latitude MinLatitude MaxLatitude hab
  have hpi := Real.pi_pos
  have hlo' : (-85.05112878 : ℝ) ≤ clip latitude MinLatitude MaxLatitude := by
    rw [show (-85.05112878 : ℝ) = MinLatitude from by norm_num [MinLatitude]]
    exact hlo
  have hhi' : clip latitude MinLatitude MaxLatitude ≤ (85.05112878 : ℝ) := by
    rw [show (85.05112878 : ℝ) = MaxLatitude from by norm_num [MaxLatitude, MinLatitude]]
    exact hhi
  constructor
  · nlinarith
  · nlinarith

theorem cos_clip_lat_pos (latitude : ℝ) :
    0 < Real.cos (clip latitude MinLatitude MaxLatitude * Real.pi / 180) :=
  Real.cos_pos_of_mem_Ioo (clip_lat_angle_mem latitude)

theorem sin_clip_lat_lt_one (latitude : ℝ) :
    -1 < Real.sin (clip latitude MinLatitude MaxLatitude * Real.pi / 180) ∧
      Real.sin (clip latitude MinLatitude MaxLatitude * Real.pi / 180) < 1 := by
  set θ := clip latitude MinLatitude MaxLatitude * Real.pi / 180 with hθ
  have hcos := cos_clip_lat_pos latitude
  rw [← hθ] at hcos
  have hsq := Real.sin_sq_add_cos_sq θ
  have hle := Real.sin_le_one θ
  have hge := Real.neg_one_le_sin θ
  constructor
  · nlinarith
  · nlinarith

/-! ### C7: ground resolution is strictly decreasing in the level -/

theorem mapSize_cast_lt {k j : Nat} (hk : k < j) (hj : j ≤ 55) :
    (MapSize k : ℝ) < (MapSize j : ℝ) := by
  have h1 : MapSize k < MapSize j := by
    rw [mapSize_eq_of_le (by omega), mapSize_eq_of_le hj]
    exact mul_lt_mul_of_pos_left (Nat.pow_lt_pow_right (by norm_num) hk) (by norm_num)
  exact_mod_cast h1

theorem mapSize_cast_pos {k : Nat} (hk : k ≤ 55) : (0 : ℝ) < (MapSize k : ℝ) := by
  have h1 : 0 < MapSize k := by
    rw [mapSize_eq_of_le hk]
    positivity
  exact_mod_cast h1

/-- C7: for every fixed latitude, `GroundResolution latitude level` is
strictly decreasing in the level: for all levels `k < j` in [1, 23],
`GroundResolution latitude j < GroundResolution latitude k` (the clamped
latitude keeps the cosine factor strictly positive, and the map size grows
strictly). -/
theorem groundResolution_strict_anti (latitude : ℝ) (k j : Nat)
    (h1 : 1 ≤ k) (h2 : k < j) (h3 : j ≤ 23) :
    GroundResolution latitude j < GroundResolution latitude k := by
  unfold GroundResolution
  have hz : (0 : ℝ) <
      Real.cos (clip latitude MinLatitude MaxLatitude * Real.pi / 180) * 2 * Real.pi *
        EarthRadius := by
    have h4 := cos_clip_lat_pos latitude
    have h5 := Real.pi_pos
    have h6 : (0 : ℝ) < EarthRadius := by norm_num [EarthRadius]
    positivity
  exact div_lt_div_of_pos_left hz (mapSize_cast_pos (by omega)) (mapSize_cast_lt h2 (by omega))

theorem groundResolution_strict_anti_witness :
    1 ≤ 1 ∧ 1 < 2 ∧ 2 ≤ 23 ∧ GroundResolution 0 2 < GroundResolution 0 1 :=
  ⟨by decide, by decide, by decide,
    groundResolution_strict_anti 0 1 2 (by decide) (by decide) (by decide)⟩

/-! ### C9: LatLongToQuadKey is exactly the three-stage composition -/

/-- C9: for every latitude, longitude and level, `LatLongToQuadKey` equals
`TileXYToQuadKey` applied (with the same level) to the result of
`PixelXYToTileXY` applied to the result of `LatLongToPixelXY`, with no other
logic — the two sides are definitionally equal. -/
theorem latLongToQuadKey_is_composition (latitude longitude : ℝ) (levelOfDetail : Nat) :
    LatLongToQuadKey latitude longitude levelOfDetail =
      TileXYToQuadKey
        (PixelXYToTileXY (LatLongToPixelXY latitude longitude levelOfDetail).1
          (LatLongToPixelXY latitude longitude levelOfDetail).2).1
        (PixelXYToTileXY (LatLongToPixelXY latitude longitude levelOfDetail).1
          (LatLongToPixelXY latitude longitude levelOfDetail).2).2
        levelOfDetail := rfl

/-! ### C5: the projection clamps first and lands in pixel range -/

theorem mapSizeSub1_eq {l : Nat} (h : l ≤ 55) :
    (MapSize l + 2 ^ 64 - 1) % 2 ^ 64 = MapSize l - 1 := by
  have h1 : 1 ≤ MapSize l := by
    rw [mapSize_eq_of_le h]
    have hp : 0 < 256 * 2 ^ l := by positivity
    omega
  have h2 : MapSize l < 2 ^ 64 := Nat.mod_lt _ (by norm_num)
  rw [show MapSize l + 2 ^ 64 - 1 = (MapSize l - 1) + 2 ^ 64 from by omega,
    Nat.add_mod_right]
  exact Nat.mod_eq_of_lt (by omega)

theorem goInt_clip_range (v : ℝ) (m1 : Nat) :
    0 ≤ goInt (clip v 0 (m1 : ℝ)) ∧ goInt (clip v 0 (m1 : ℝ)) ≤ (m1 : Int) := by
  have h0 : (0 : ℝ) ≤ (m1 : ℝ) := Nat.cast_nonneg m1
  have hr0 : 0 ≤ clip v 0 (m1 : ℝ) := le_min (le_max_right v 0) h0
  have hr1 : clip v 0 (m1 : ℝ) ≤ (m1 : ℝ) := min_le_right _ _
  have hgi : goInt (clip v 0 (m1 : ℝ)) = ⌊clip v 0 (m1 : ℝ)⌋ := by
    unfold goInt
    exact if_pos hr0
  refine ⟨?_, ?_⟩
  · rw [hgi]
    exact Int.floor_nonneg.mpr hr0
  · rw [hgi]
    calc ⌊clip v 0 (m1 : ℝ)⌋ ≤ ⌊(m1 : ℝ)⌋ := Int.floor_le_floor hr1
      _ = (m1 : Int) := Int.floor_natCast m1

/-- C5: for every latitude and longitude (out-of-range values included) and
every level in [1, 23], `LatLongToPixelXY` clamps both inputs first (applying
it to the pre-clamped inputs gives the same result), its returned pixel
coordinates always lie in `[0, MapSize level - 1]`, and — in the exact real
idealisation of the `float64` arithmetic — the argument of the logarithm,
`(1 + sinLatitude) / (1 - sinLatitude)`, is strictly positive with a nonzero
denominator at the clamped pole boundary, so the `atanh`-equivalent log term
meets no singularity (the float computation produces no NaN or infinity
there). -/
theorem latLongToPixelXY_clamped_safe (latitude longitude : ℝ) (level : Nat)
    (h1 : 1 ≤ level) (h2 : level ≤ 23) :
    LatLongToPixelXY latitude longitude level =
        LatLongToPixelXY (clip latitude MinLatitude MaxLatitude)
          (clip longitude MinLongitude MaxLongitude) level ∧
      0 < 1 - Real.sin (clip latitude MinLatitude MaxLatitude * Real.pi / 180) ∧
      0 < (1 + Real.sin (clip latitude MinLatitude MaxLatitude * Real.pi / 180)) /
          (1 - Real.sin (clip latitude MinLatitude MaxLatitude * Real.pi / 180)) ∧
      (0 ≤ (LatLongToPixelXY latitude longitude level).1 ∧
        (LatLongToPixelXY latitude longitude level).1 ≤ (MapSize level : Int) - 1) ∧
      (0 ≤ (LatLongToPixelXY latitude longitude level).2 ∧
        (LatLongToPixelXY latitude longitude level).2 ≤ (MapSize level : Int) - 1) := by
  have hlatb : MinLatitude ≤ MaxLatitude := by norm_num [MinLatitude, MaxLatitude]
  have hlongb : MinLongitude ≤ MaxLongitude := by norm_num [MinLongitude, MaxLongitude]
  obtain ⟨hsgt, hslt⟩ := sin_clip_lat_lt_one latitude
  have hms1 : 1 ≤ MapSize level := by
    rw [mapSize_eq_of_le (show level ≤ 55 by omega)]
    have hp : 0 < 256 * 2 ^ level := by positivity
    omega
  have hcast : ((MapSize level - 1 : Nat) : Int) = (MapSize level : Int) - 1 := by
    push_cast [Nat.cast_sub hms1]
    ring
  refine ⟨?_, by linarith, div_pos (by linarith) (by linarith), ?_, ?_⟩
  · simp only [LatLongToPixelXY]
    rw [clip_clip latitude MinLatitude MaxLatitude hlatb,
      clip_clip longitude MinLongitude MaxLongitude hlongb]
  · simp only [LatLongToPixelXY, mapSizeSub1_eq (show level ≤ 55 by omega)]
    constructor
    · exact (goInt_clip_range _ _).1
    · rw [← hcast]
      exact (goInt_clip_range _ _).2
  · simp only [LatLongToPixelXY, mapSizeSub1_eq (show level ≤ 55 by omega)]
    constructor
    · exact (goInt_clip_range _ _).1
    · rw [← hcast]
      exact (goInt_clip_range _ _).2

theorem latLongToPixelXY_clamped_safe_witness :
    1 ≤ 1 ∧ 1 ≤ 23 ∧
      (LatLongToPixelXY 90 200 1 =
          LatLongToPixelXY (clip 90 MinLatitude MaxLatitude)
            (clip 200 MinLongitude MaxLongitude) 1 ∧
        0 < 1 - Real.sin (clip 90 MinLatitude MaxLatitude * Real.pi / 180) ∧
        0 < (1 + Real.sin (clip 90 MinLatitude MaxLatitude * Real.pi / 180)) /
            (1 - Real.sin (clip 90 MinLatitude MaxLatitude * Real.pi / 180)) ∧
        (0 ≤ (LatLongToPixelXY 90 200 1).1 ∧
          (LatLongToPixelXY 90 200 1).1 ≤ (MapSize 1 : Int) - 1) ∧
        (0 ≤ (LatLongToPixelXY 90 200 1).2 ∧
          (LatLongToPixelXY 90 200 1).2 ≤ (MapSize 1 : Int) - 1)) :=
  ⟨by decide, by decide, latLongToPixelXY_clamped_safe 90 200 1 (by decide) (by decide)⟩

end Quadkeys
